import Mathlib

/-
Shallow embedding of the psca pool stack allocator (src/lib/psca.c).

Pointers are modelled as natural-number addresses; size_t values wrap
modulo 2^64, written explicitly where the source performs size_t
arithmetic.  The caller-supplied backing allocator (psca_alloc_func_t)
is modelled as an oracle: a function from the call index and the
requested size to an optional response (address of the new chunk,
actual size written back through the size pointer); NULL is `none`.
The pool records ghost logs of the requests issued to the allocation
callback, the addresses passed to the free callback, and the addresses
the allocation callback returned, so that theorems can observe the
interaction with the backing allocator.  Linked `prev` chains (the
frame stack and each frame's block chain) are modelled as Lean lists
whose head is the most recent element.
-/

namespace Psca

/-- Width of the size_t machine word; size_t arithmetic wraps modulo this. -/
def W : Nat := 2 ^ 64

/-- Wrapping size_t addition. -/
def addW (a b : Nat) : Nat := (a + b) % W

/-- Wrapping size_t subtraction (for a left operand below the word width). -/
def subW (a b : Nat) : Nat := (a + W - b % W) % W

/-- Wrapping size_t multiplication. -/
def mulW (a b : Nat) : Nat := (a * b) % W

/-- Size in bytes of a block header, `sizeof(struct psca_block)` on an LP64
target: two 8-byte fields (`prev`, `size`). -/
def blockHeaderSize : Nat := 16

/-- Size in bytes of a frame header, `sizeof(struct psca_frame)` on an LP64
target: four 8-byte fields; the source calls this `PSCA_FRAME_OVERHEAD`. -/
def frameHeaderSize : Nat := 32

/-- A `struct psca_block`: a contiguous chunk obtained from the backing
allocator.  `base` is the address the alloc callback returned (the header
lives there, the payload starts at `base + blockHeaderSize`); `size` is the
usable payload size stored in the header (`block->size`). -/
structure Block where
  base : Nat
  size : Nat
  deriving DecidableEq

/-- A `struct psca_frame`.  `blocks` is the frame's owned block chain
(`frame->blocks`, head = most recently added; the `prev` links of the C
chain are the list tail).  `addr` is the address at which the frame header
is embedded, which is also the opaque handle `psca_push`/`psca_pop` return.
`next` is the bump cursor (`frame->next`) and `free` the remaining byte
count (`frame->free`).  The C `frame->prev` field is represented by the
ordering of the pool's frame list. -/
structure Frame where
  blocks : List Block
  addr : Nat
  next : Nat
  free : Nat
  deriving DecidableEq

/-- A `struct psca_pool`.  `frames` is the frame stack (`pool->frames`,
head = top).  `alloc_func` is the backing-allocator oracle: call index and
requested size to optional (chunk address, actual size).  `reqs`, `frees`
and `allocs` are ghost logs of the sizes requested from the alloc callback,
the addresses handed to the free callback, and the chunk addresses the
alloc callback returned. -/
structure Pool where
  frames : List Frame
  block_size : Nat
  growth_factor : Nat
  alloc_func : Nat → Nat → Option (Nat × Nat)
  reqs : List Nat
  frees : List Nat
  allocs : List Nat

/-- Invoke the pool's allocation callback once, logging the request. -/
def stratCall (pool : Pool) (req : Nat) : Option (Nat × Nat) × Pool :=
  (pool.alloc_func pool.reqs.length req,
   { pool with reqs := pool.reqs ++ [req] })

/-- Embedding of `psca_block_add`: pad the requested size with the block
header, call the allocation callback, and on success record the usable
payload size (`size - sizeof(psca_block_t)`) in the header.  Linking the
new block onto a chain (`block->prev = prev`) is performed by the caller by
consing onto its block list. -/
def psca_block_add (pool : Pool) (size : Nat) : Option Block × Pool :=
  let req := addW size blockHeaderSize
  match stratCall pool req with
  | (none, pool1) => (none, pool1)
  | (some (base, ret), pool1) =>
      (some { base := base, size := subW ret blockHeaderSize },
       { pool1 with allocs := pool1.allocs ++ [base] })

/-- New-block path of `psca_push` (taken when there is no previous frame or
the previous frame lacks room for a frame header): acquire a block of
`pool->block_size`, embed the frame header at the payload start, and make
this block the sole element of the new frame's owned chain. -/
def pushNewBlock (pool : Pool) : Option Nat × Pool :=
  match psca_block_add pool pool.block_size with
  | (none, pool1) => (none, pool1)
  | (some block, pool1) =>
      let addr := block.base + blockHeaderSize
      (some addr,
       { pool1 with frames :=
           { blocks := [block], addr := addr,
             next := addr + frameHeaderSize,
             free := subW block.size frameHeaderSize } :: pool1.frames })

/-- Embedding of `psca_push`.  Returns the new frame's address (NULL is
`none`) together with the updated pool. -/
def psca_push (pool : Pool) : Option Nat × Pool :=
  match pool.frames with
  | prev :: _ =>
      if prev.free < frameHeaderSize then
        pushNewBlock pool
      else
        (some prev.next,
         { pool with frames :=
             { blocks := [], addr := prev.next,
               next := prev.next + frameHeaderSize,
               free := subW prev.free frameHeaderSize } :: pool.frames })
  | [] => pushNewBlock pool

/-- Embedding of `psca_pop`.  On an empty stack the C code dereferences the
NULL `pool->frames` pointer (`frame->prev`), which is undefined behavior:
the embedding has no result there.  Otherwise the top frame is unlinked and
each block of its owned chain is handed to the free callback, newest
first. -/
def psca_pop (pool : Pool) : Option (Nat × Pool) :=
  match pool.frames with
  | [] => none
  | frame :: rest =>
      some (frame.addr,
        { pool with frames := rest,
                    frees := pool.frees ++ frame.blocks.map Block.base })

/-- Block size chosen on the growth path of `psca_malloc`
(`alloc_size = size < pool->block_size ? pool->block_size
: size * pool->growth_factor`, in size_t arithmetic). -/
def growthAllocSize (pool : Pool) (size : Nat) : Nat :=
  if size < pool.block_size then pool.block_size
  else mulW size pool.growth_factor

/-- Embedding of `psca_malloc`.  On an empty frame stack the C code reads
the fields of the NULL top frame (`frame->free`), which is undefined
behavior: the outer result is `none`.  Otherwise the inner option is the
returned pointer (`none` for a NULL return after a failed block
acquisition). -/
def psca_malloc (pool : Pool) (size : Nat) : Option (Option Nat × Pool) :=
  match pool.frames with
  | [] => none
  | frame :: rest =>
      if frame.free < size then
        match psca_block_add pool (growthAllocSize pool size) with
        | (none, pool1) => some (none, pool1)
        | (some block, pool1) =>
            some (some (block.base + blockHeaderSize),
              { pool1 with frames :=
                  { frame with blocks := block :: frame.blocks,
                               next := block.base + blockHeaderSize + size,
                               free := subW block.size size } :: rest })
      else
        some (some frame.next,
          { pool with frames :=
              { frame with next := frame.next + size,
                           free := subW frame.free size } :: rest })

/-- Embedding of `psca_new`, parametrized by the backing-allocator oracle
(the C version installs the heap-backed default, which `psca_set_funcs`
may replace).  Defaults: 64 KiB block size, growth factor 2, empty frame
stack. -/
def psca_new (alloc : Nat → Nat → Option (Nat × Nat)) : Pool :=
  { frames := [], block_size := 64 * 1024, growth_factor := 2,
    alloc_func := alloc, reqs := [], frees := [], allocs := [] }

/-- Embedding of `psca_destroy`: the source frees the pool structure and
returns 0 unconditionally; no examination of the frame stack occurs. -/
def psca_destroy (_pool : Pool) : Int := 0

/-- Embedding of `psca_set_block_size`. -/
def psca_set_block_size (pool : Pool) (value : Nat) : Pool :=
  { pool with block_size := value }

/-- Embedding of `psca_set_growth_factor` (for the nonnegative factors the
spec uses; the C parameter is an int converted to size_t on use). -/
def psca_set_growth_factor (pool : Pool) (value : Nat) : Pool :=
  { pool with growth_factor := value }

/-- Backing allocator that always fails (always returns NULL). -/
def failAlloc : Nat → Nat → Option (Nat × Nat) := fun _ _ => none

/-- Backing allocator that returns exactly the requested size and places
the chunk for call i at address 1000000 * (i + 1). -/
def exactAlloc : Nat → Nat → Option (Nat × Nat) :=
  fun i req => some (1000000 * (i + 1), req)

/-- Concrete block used by the example states below. -/
def blk0 : Block := { base := 1000, size := 132 }

/-- Concrete frame whose header sits at the start of blk0's payload and
which has 100 free bytes left in it. -/
def frm0 : Frame := { blocks := [blk0], addr := 1016, next := 1048, free := 100 }

/-- Concrete pool whose stack holds exactly frm0. -/
def poolEx : Pool :=
  { frames := [frm0], block_size := 65536, growth_factor := 2,
    alloc_func := exactAlloc, reqs := [], frees := [], allocs := [] }

/-- Concrete block backing frmTight. -/
def blk1 : Block := { base := 2000, size := 42 }

/-- Concrete frame with 10 free bytes, fewer than a frame header needs. -/
def frmTight : Frame := { blocks := [blk1], addr := 2016, next := 2048, free := 10 }

/-- Concrete pool whose stack holds exactly frmTight. -/
def poolTight : Pool :=
  { frames := [frmTight], block_size := 65536, growth_factor := 2,
    alloc_func := exactAlloc, reqs := [], frees := [], allocs := [] }

/-- Concrete block of payload size 1024. -/
def blkG : Block := { base := 3000, size := 1024 }

/-- Concrete fresh frame at the start of blkG's payload: 992 free bytes,
1024 minus the frame header. -/
def frmG : Frame := { blocks := [blkG], addr := 3016, next := 3048, free := 992 }

/-- Concrete pool with block size 1024 and growth factor 2, a fresh frame on
its stack. -/
def poolG : Pool :=
  { frames := [frmG], block_size := 1024, growth_factor := 2,
    alloc_func := exactAlloc, reqs := [], frees := [], allocs := [] }

/-- Concrete pool whose backing allocator always fails, with a top frame too
small to host another frame header. -/
def poolFail : Pool :=
  { frames := [frmTight], block_size := 65536, growth_factor := 2,
    alloc_func := failAlloc, reqs := [], frees := [], allocs := [] }

/-- The half-open address interval starting at lo of the given length lies
inside the payload of block b. -/
def insidePayload (b : Block) (lo len : Nat) : Prop :=
  b.base + blockHeaderSize ≤ lo ∧
  lo + len ≤ b.base + blockHeaderSize + b.size

/-- Bump-state invariant of the allocation fast path: the frame's remaining
window (from its cursor, of its free length) is exactly the tail of block
b's payload. -/
def FrameFits (f : Frame) (b : Block) : Prop :=
  b.base + blockHeaderSize ≤ f.next ∧
  f.next + f.free = b.base + blockHeaderSize + b.size

/-- Soundness of the backing allocator from call index n onwards: every
successful response to a request below the word bound returns at least the
requested size (itself below the word bound) and a chunk starting at or
after address hi, and responses at later call indices start after earlier
responses end.  This models an allocator handing out fresh, non-overlapping
memory beyond the region the pool is currently bumping through. -/
def AllocSound (alloc : Nat → Nat → Option (Nat × Nat)) (n hi : Nat) : Prop :=
  (∀ i req base ret, n ≤ i → req < W → alloc i req = some (base, ret) →
      req ≤ ret ∧ ret < W ∧ hi ≤ base) ∧
  (∀ i j ri rj bi reti bj retj, n ≤ i → i < j → ri < W → rj < W →
      alloc i ri = some (bi, reti) → alloc j rj = some (bj, retj) →
      bi + reti ≤ bj)

/-- Backing allocator returning exactly the requested size, placing the
chunk for call i at address (i + 1) * W, beyond every earlier response. -/
def pagedAlloc : Nat → Nat → Option (Nat × Nat) :=
  fun i req => some ((i + 1) * W, req)

/-- Concrete pool like poolG but backed by pagedAlloc. -/
def poolP : Pool :=
  { frames := [frmG], block_size := 1024, growth_factor := 2,
    alloc_func := pagedAlloc, reqs := [], frees := [], allocs := [] }

/-- Pool state reached from poolP by a fast-path allocation of 500 bytes. -/
def poolP1 : Pool :=
  { frames := [{ blocks := [blkG], addr := 3016, next := 3548, free := 492 }],
    block_size := 1024, growth_factor := 2,
    alloc_func := pagedAlloc, reqs := [], frees := [], allocs := [] }

/-- Pool state reached from poolP1 by a growth-path allocation of 600
bytes: one new 1024-byte block at address W. -/
def poolP2 : Pool :=
  { frames := [{ blocks := [{ base := W, size := 1024 }, blkG], addr := 3016,
                 next := W + 616, free := 424 }],
    block_size := 1024, growth_factor := 2,
    alloc_func := pagedAlloc, reqs := [1040], frees := [], allocs := [W] }

end Psca

namespace Psca

theorem addW_eq {a b : Nat} (h : a + b < W) : addW a b = a + b :=
  Nat.mod_eq_of_lt h

theorem subW_eq {a b : Nat} (hb : b ≤ a) (ha : a < W) : subW a b = a - b := by
  unfold subW
  rw [Nat.mod_eq_of_lt (lt_of_le_of_lt hb ha)]
  have h1 : a + W - b = a - b + W := by omega
  rw [h1, Nat.add_mod_right, Nat.mod_eq_of_lt (by omega)]

theorem mulW_eq {a b : Nat} (h : a * b < W) : mulW a b = a * b :=
  Nat.mod_eq_of_lt h

/-- C1: calling Pop on a pool whose frame stack is empty has no defined
result in the embedding: instead of failing explicitly with a
StackImbalance error, `psca_pop` dereferences the NULL `pool->frames`
pointer (undefined behavior). -/
theorem c1_pop_empty_faults : psca_pop (psca_new exactAlloc) = none := rfl

/-- C2: `psca_destroy` on a pool that still has a frame on its stack does
not perform the StackImbalance check the claim (and the function's own
header documentation) requires: it returns 0, the success value. -/
theorem c2_destroy_ignores_frames :
    psca_destroy poolEx = 0 ∧ poolEx.frames ≠ [] := by
  constructor
  · rfl
  · intro h
    simp [poolEx] at h

/-- C10: `psca_malloc` on a pool whose frame stack is empty has no defined
result: the code unconditionally reads the fields of the NULL top frame, so
a non-empty stack is a hard precondition and an empty stack is never
surfaced as an AllocationFailure (NULL) return. -/
theorem c10_malloc_empty_faults (pool : Pool) (size : Nat)
    (h : pool.frames = []) : psca_malloc pool size = none := by
  unfold psca_malloc
  rw [h]

/-- Witness for C10 at a concrete empty pool and request size. -/
theorem c10_malloc_empty_faults_witness :
    psca_malloc (psca_new exactAlloc) 7 = none :=
  c10_malloc_empty_faults (psca_new exactAlloc) 7 rfl

/-- C5: popping a non-empty stack hands exactly the popped frame's owned
blocks to the free callback, appended to the log once each in chain order
(most recently added first), and leaves every remaining ancestor frame
record — hence every ancestor-owned block — untouched. -/
theorem c5_pop_releases_owned_blocks (pool : Pool) (frame : Frame)
    (rest : List Frame) (h : pool.frames = frame :: rest) :
    psca_pop pool = some (frame.addr,
      { pool with frames := rest,
                  frees := pool.frees ++ frame.blocks.map Block.base }) := by
  unfold psca_pop
  rw [h]

/-- Witness for C5 at the concrete pool poolEx. -/
theorem c5_pop_releases_owned_blocks_witness :
    psca_pop poolEx = some (frm0.addr,
      { poolEx with frames := [],
                    frees := poolEx.frees ++ frm0.blocks.map Block.base }) :=
  c5_pop_releases_owned_blocks poolEx frm0 [] rfl

/-- C3 counterexample: pushing over a top frame that has 100 free bytes
embeds the new frame (whose free count is 100 - 32 = 68), but the suspended
previous frame still records free = 100: its freeBytes field is not
decremented by the header size as the claim asserts. -/
theorem c3_prev_frame_not_decremented :
    (psca_push poolEx).2.frames.map Frame.free = [68, 100] ∧
    frm0.free = 100 ∧ (100 : Nat) ≠ 100 - frameHeaderSize := by
  refine ⟨?_, rfl, by decide⟩
  rfl

/-- C3 (amended): when the top frame has at least a frame header's worth of
free bytes, Push embeds the new frame's header at the top frame's cursor;
the NEW frame's cursor is that cursor advanced by the header size and its
free count is the top frame's free count diminished by the header size,
its owned-block chain starts empty, and no block is requested (the request
log is unchanged), the new frame continuing in the same underlying block;
the suspended previous frame's own stored fields are left unchanged. -/
theorem c3_embedded_push_effect (pool : Pool) (prev : Frame) (rest : List Frame)
    (hf : pool.frames = prev :: rest) (hroom : frameHeaderSize ≤ prev.free)
    (hW : prev.free < W) :
    psca_push pool = (some prev.next,
      { pool with frames :=
          { blocks := [], addr := prev.next,
            next := prev.next + frameHeaderSize,
            free := prev.free - frameHeaderSize } :: prev :: rest }) := by
  unfold psca_push
  rw [hf]
  simp only [Nat.not_lt.mpr hroom, if_false, subW_eq hroom hW]

/-- Witness for C3 (amended) at the concrete pool poolEx. -/
theorem c3_embedded_push_effect_witness :
    psca_push poolEx = (some frm0.next,
      { poolEx with frames :=
          { blocks := [], addr := frm0.next,
            next := frm0.next + frameHeaderSize,
            free := frm0.free - frameHeaderSize } :: frm0 :: [] }) :=
  c3_embedded_push_effect poolEx frm0 [] rfl (by decide) (by decide)

theorem pushNewBlock_reqs (pool : Pool) :
    (pushNewBlock pool).2.reqs =
      pool.reqs ++ [addW pool.block_size blockHeaderSize] := by
  unfold pushNewBlock psca_block_add stratCall
  rcases hresp : pool.alloc_func pool.reqs.length
      (addW pool.block_size blockHeaderSize) with _ | ⟨base, ret⟩ <;>
    simp [hresp]

/-- C9: a Push over an existing top frame with at least a frame header's
worth of leftover space embeds the new header at that frame's cursor, with
an empty owned-block chain and no request to the backing allocator; only
when the leftover space is insufficient, or the stack is empty, does Push
issue exactly one request, for a block of the pool's default block size
(plus the block-header overhead the source pads every request with). -/
theorem c9_push_embeds_before_allocating (pool : Pool) :
    (∀ prev rest, pool.frames = prev :: rest →
      (frameHeaderSize ≤ prev.free →
        (psca_push pool).1 = some prev.next ∧
        (psca_push pool).2.reqs = pool.reqs ∧
        (psca_push pool).2.frames.head?.map Frame.blocks = some []) ∧
      (prev.free < frameHeaderSize →
        (psca_push pool).2.reqs =
          pool.reqs ++ [addW pool.block_size blockHeaderSize])) ∧
    (pool.frames = [] →
      (psca_push pool).2.reqs =
        pool.reqs ++ [addW pool.block_size blockHeaderSize]) := by
  constructor
  · intro prev rest hf
    constructor
    · intro hroom
      unfold psca_push
      rw [hf]
      simp [Nat.not_lt.mpr hroom]
    · intro htight
      unfold psca_push
      rw [hf]
      simp only [htight, if_true]
      exact pushNewBlock_reqs pool
  · intro hf
    unfold psca_push
    rw [hf]
    exact pushNewBlock_reqs pool

/-- Witness for C9: the embedded case at poolEx, the insufficient-room case
at poolTight, and the empty-stack case at a fresh pool. -/
theorem c9_push_embeds_before_allocating_witness :
    ((psca_push poolEx).1 = some frm0.next ∧
     (psca_push poolEx).2.reqs = poolEx.reqs ∧
     (psca_push poolEx).2.frames.head?.map Frame.blocks = some []) ∧
    (psca_push poolTight).2.reqs =
      poolTight.reqs ++ [addW poolTight.block_size blockHeaderSize] ∧
    (psca_push (psca_new exactAlloc)).2.reqs =
      (psca_new exactAlloc).reqs ++
        [addW (psca_new exactAlloc).block_size blockHeaderSize] :=
  ⟨((c9_push_embeds_before_allocating poolEx).1 frm0 [] rfl).1 (by decide),
   ((c9_push_embeds_before_allocating poolTight).1 frmTight [] rfl).2 (by decide),
   (c9_push_embeds_before_allocating (psca_new exactAlloc)).2 rfl⟩

/-- C4: on the growth path (the requested size exceeds the active frame's
free bytes) the payload size requested from the backing allocator is exactly
`size < block_size ? block_size : size * growth_factor`; every request is
additionally padded with the block-header overhead, and when the allocator
returns exactly the padded request the new block's usable size is the
computed value — in particular 10000 for Allocate(5000) under
blockSize 1024 and growthFactor 2 (see the witness). -/
theorem c4_growth_request_size (pool : Pool) (frame : Frame)
    (rest : List Frame) (size base : Nat)
    (hf : pool.frames = frame :: rest)
    (hgrow : frame.free < size)
    (hmul : size * pool.growth_factor < W)
    (hWb : growthAllocSize pool size + blockHeaderSize < W)
    (hresp : pool.alloc_func pool.reqs.length
        (addW (growthAllocSize pool size) blockHeaderSize) =
      some (base, addW (growthAllocSize pool size) blockHeaderSize)) :
    growthAllocSize pool size =
      (if size < pool.block_size then pool.block_size
       else size * pool.growth_factor) ∧
    psca_malloc pool size = some (some (base + blockHeaderSize),
      { pool with
          frames := { frame with
              blocks := { base := base, size := growthAllocSize pool size }
                :: frame.blocks,
              next := base + blockHeaderSize + size,
              free := subW (growthAllocSize pool size) size } :: rest,
          reqs := pool.reqs ++ [addW (growthAllocSize pool size) blockHeaderSize],
          allocs := pool.allocs ++ [base] }) := by
  have hblk : subW (addW (growthAllocSize pool size) blockHeaderSize)
      blockHeaderSize = growthAllocSize pool size := by
    rw [addW_eq hWb, subW_eq (Nat.le_add_left _ _) hWb, Nat.add_sub_cancel]
  constructor
  · unfold growthAllocSize
    split
    · rfl
    · exact mulW_eq hmul
  · unfold psca_malloc
    rw [hf]
    simp only [hgrow, if_true]
    unfold psca_block_add stratCall
    simp only [hresp, hblk]

/-- Failure behaviour of the new-block path of psca_push: the request is
logged but nothing else changes. -/
theorem pushNewBlock_fail (pool : Pool)
    (hfail : pool.alloc_func pool.reqs.length
      (addW pool.block_size blockHeaderSize) = none) :
    pushNewBlock pool =
      (none, { pool with
                 reqs := pool.reqs ++ [addW pool.block_size blockHeaderSize] }) := by
  unfold pushNewBlock psca_block_add stratCall
  simp [hfail]

/-- C6: when the backing allocator's next call fails, a Push that takes the
new-block path (empty stack, or top frame too small for a header) returns
NULL with the frame stack it started with, and a growth-path psca_malloc
returns NULL with the frame stack — hence the active frame's cursor, free
count and block chain — unmodified, with no partially linked block. -/
theorem c6_alloc_failure_leaves_state (pool : Pool)
    (hfail : ∀ req, pool.alloc_func pool.reqs.length req = none) :
    ((pool.frames = [] ∨
        ∃ f rest, pool.frames = f :: rest ∧ f.free < frameHeaderSize) →
      (psca_push pool).1 = none ∧ (psca_push pool).2.frames = pool.frames) ∧
    (∀ size f rest, pool.frames = f :: rest → f.free < size →
      (psca_malloc pool size).map Prod.fst = some none ∧
      (psca_malloc pool size).map (fun r => r.2.frames) = some pool.frames) := by
  have hfailb := pushNewBlock_fail pool (hfail _)
  constructor
  · intro hcase
    rcases hcase with hempty | ⟨f, rest, hf, htight⟩
    · unfold psca_push
      rw [hempty]
      simp [hfailb, hempty]
    · unfold psca_push
      rw [hf]
      simp [htight, hfailb, hf]
  · intro size f rest hf hgrow
    unfold psca_malloc
    rw [hf]
    simp only [hgrow, if_true]
    unfold psca_block_add stratCall
    simp [hfail, hf]

/-- Witness for C4: Allocate(5000) on poolG (block size 1024, growth factor
2, fresh frame with 992 free bytes) requests a 10000-byte payload. -/
theorem c4_growth_request_size_witness :
    growthAllocSize poolG 5000 =
      (if 5000 < poolG.block_size then poolG.block_size
       else 5000 * poolG.growth_factor) ∧
    psca_malloc poolG 5000 = some (some (1000000 + blockHeaderSize),
      { poolG with
          frames := { frmG with
              blocks := { base := 1000000, size := growthAllocSize poolG 5000 }
                :: frmG.blocks,
              next := 1000000 + blockHeaderSize + 5000,
              free := subW (growthAllocSize poolG 5000) 5000 } :: ([] : List Frame),
          reqs := poolG.reqs ++ [addW (growthAllocSize poolG 5000) blockHeaderSize],
          allocs := poolG.allocs ++ [1000000] }) :=
  c4_growth_request_size poolG frmG [] 5000 1000000 rfl (by decide) (by decide)
    (by decide) rfl

/-- Witness for C6 at poolFail: a failing allocator leaves both Push and a
growth-path psca_malloc without effect on the frame stack. -/
theorem c6_alloc_failure_leaves_state_witness :
    ((psca_push poolFail).1 = none ∧
     (psca_push poolFail).2.frames = poolFail.frames) ∧
    ((psca_malloc poolFail 50).map Prod.fst = some none ∧
     (psca_malloc poolFail 50).map (fun r => r.2.frames) = some poolFail.frames) :=
  ⟨(c6_alloc_failure_leaves_state poolFail (fun _ => rfl)).1
      (Or.inr ⟨frmTight, [], rfl, by decide⟩),
   (c6_alloc_failure_leaves_state poolFail (fun _ => rfl)).2 50 frmTight [] rfl
      (by decide)⟩

/-- Round trip through the new-block path: popping right after a push that
acquired a block releases exactly that block. -/
theorem roundtrip_newblock (pool : Pool) (h : Nat) (pool1 : Pool)
    (hp : pushNewBlock pool = (some h, pool1)) :
    ∃ pool2, psca_pop pool1 = some (h, pool2) ∧
      pool2.frames = pool.frames ∧
      pool2.frees = pool.frees ++ pool1.allocs.drop pool.allocs.length ∧
      (pool2.frees.drop pool.frees.length).Nodup := by
  unfold pushNewBlock psca_block_add stratCall at hp
  rcases hresp : pool.alloc_func pool.reqs.length
      (addW pool.block_size blockHeaderSize) with _ | ⟨base, ret⟩
  · simp [hresp] at hp
  · simp [hresp] at hp
    obtain ⟨hh, hpool⟩ := hp
    subst hh
    subst hpool
    refine ⟨_, rfl, rfl, ?_, ?_⟩
    · simp
    · simp

/-- C7: a Push that succeeds, immediately followed by a Pop, returns the
pushed handle from the Pop, restores the frame stack — hence the prior top
frame and its free-byte accounting — exactly, and releases exactly the
blocks the Push acquired, each once (no leak, no double release). -/
theorem c7_push_pop_roundtrip (pool : Pool) (h : Nat) (pool1 : Pool)
    (hp : psca_push pool = (some h, pool1)) :
    ∃ pool2, psca_pop pool1 = some (h, pool2) ∧
      pool2.frames = pool.frames ∧
      pool2.frees = pool.frees ++ pool1.allocs.drop pool.allocs.length ∧
      (pool2.frees.drop pool.frees.length).Nodup := by
  rcases hf : pool.frames with _ | ⟨prev, rest⟩
  · rw [← hf]
    apply roundtrip_newblock pool h pool1
    have hpp : psca_push pool = pushNewBlock pool := by
      unfold psca_push
      rw [hf]
    rw [hpp] at hp
    exact hp
  · by_cases hroom : prev.free < frameHeaderSize
    · rw [← hf]
      apply roundtrip_newblock pool h pool1
      have hpp : psca_push pool = pushNewBlock pool := by
        unfold psca_push
        rw [hf]
        simp [hroom]
      rw [hpp] at hp
      exact hp
    · have hpp : psca_push pool = (some prev.next,
          { pool with frames :=
              { blocks := [], addr := prev.next,
                next := prev.next + frameHeaderSize,
                free := subW prev.free frameHeaderSize } :: prev :: rest }) := by
        unfold psca_push
        rw [hf]
        simp [hroom]
      rw [hpp] at hp
      injection hp with hh hpool
      injection hh with hh
      subst hh
      subst hpool
      refine ⟨_, rfl, rfl, ?_, ?_⟩
      · simp
      · simp

/-- Witness for C7: the embedded-push round trip on poolEx and the
new-block round trip on poolTight. -/
theorem c7_push_pop_roundtrip_witness :
    (∃ pool2, psca_pop (psca_push poolEx).2 = some (1048, pool2) ∧
      pool2.frames = poolEx.frames ∧
      pool2.frees =
        poolEx.frees ++ (psca_push poolEx).2.allocs.drop poolEx.allocs.length ∧
      (pool2.frees.drop poolEx.frees.length).Nodup) ∧
    (∃ pool2, psca_pop (psca_push poolTight).2 = some (1000016, pool2) ∧
      pool2.frames = poolTight.frames ∧
      pool2.frees =
        poolTight.frees ++
          (psca_push poolTight).2.allocs.drop poolTight.allocs.length ∧
      (pool2.frees.drop poolTight.frees.length).Nodup) :=
  ⟨c7_push_pop_roundtrip poolEx 1048 (psca_push poolEx).2 rfl,
   c7_push_pop_roundtrip poolTight 1000016 (psca_push poolTight).2 rfl⟩

theorem addW_lt (a b : Nat) : addW a b < W :=
  Nat.mod_lt _ (by decide)

/-- Effect of one successful psca_malloc on a frame satisfying the bump
invariant, under a sound backing allocator: the returned region starts at
or after the old cursor, lies inside a single block's payload, and the
invariant is re-established beyond the region's end. -/
theorem malloc_step (pool : Pool) (f : Frame) (rest : List Frame) (b : Block)
    (size p : Nat) (pool1 : Pool)
    (hf : pool.frames = f :: rest)
    (hfit : FrameFits f b)
    (hsound : AllocSound pool.alloc_func pool.reqs.length (f.next + f.free))
    (hfree : f.free < W)
    (hgf : 1 ≤ pool.growth_factor)
    (hszW : size * pool.growth_factor + blockHeaderSize < W)
    (hbsW : pool.block_size + blockHeaderSize < W)
    (hm : psca_malloc pool size = some (some p, pool1)) :
    ∃ f1 b1, pool1.frames = f1 :: rest ∧
      insidePayload b1 p size ∧
      f.next ≤ p ∧
      p + size ≤ f1.next ∧
      FrameFits f1 b1 ∧
      f1.free < W ∧
      AllocSound pool1.alloc_func pool1.reqs.length (f1.next + f1.free) ∧
      pool1.alloc_func = pool.alloc_func ∧
      pool1.block_size = pool.block_size ∧
      pool1.growth_factor = pool.growth_factor := by
  unfold psca_malloc at hm
  rw [hf] at hm
  by_cases hgrow : f.free < size
  · have hgs_lt : growthAllocSize pool size + blockHeaderSize < W := by
      unfold growthAllocSize
      split
      · exact hbsW
      · have hmle : mulW size pool.growth_factor ≤ size * pool.growth_factor :=
          Nat.mod_le _ _
        omega
    have hsize_le_gs : size ≤ growthAllocSize pool size := by
      unfold growthAllocSize
      split
      · omega
      · rw [mulW_eq (by omega)]
        calc size = size * 1 := (Nat.mul_one size).symm
        _ ≤ size * pool.growth_factor := Nat.mul_le_mul_left size hgf
    have hreq_eq : addW (growthAllocSize pool size) blockHeaderSize =
        growthAllocSize pool size + blockHeaderSize := addW_eq hgs_lt
    simp only [hgrow, if_true] at hm
    unfold psca_block_add stratCall at hm
    rcases hresp : pool.alloc_func pool.reqs.length
        (addW (growthAllocSize pool size) blockHeaderSize) with _ | ⟨base, ret⟩
    · simp [hresp] at hm
    · simp only [hresp] at hm
      simp at hm
      obtain ⟨hp, hpool1⟩ := hm
      subst hp
      subst hpool1
      obtain ⟨hrr, hretW, hhib⟩ := hsound.1 _ _ base ret (le_refl _)
        (addW_lt _ _) hresp
      rw [hreq_eq] at hrr
      have hbhdr_le : blockHeaderSize ≤ ret := by omega
      have hb1 : subW ret blockHeaderSize = ret - blockHeaderSize :=
        subW_eq hbhdr_le hretW
      have hgs_le_b1 : growthAllocSize pool size ≤ ret - blockHeaderSize := by
        omega
      have hsz_le_b1 : size ≤ ret - blockHeaderSize := le_trans hsize_le_gs hgs_le_b1
      have hfr1 : subW (subW ret blockHeaderSize) size =
          ret - blockHeaderSize - size := by
        rw [hb1]
        exact subW_eq hsz_le_b1 (by omega)
      refine ⟨_, { base := base, size := subW ret blockHeaderSize }, rfl,
        ?_, ?_, ?_, ?_, ?_, ?_, rfl, rfl, rfl⟩
      · constructor
        · dsimp only
          omega
        · dsimp only
          rw [hb1]
          omega
      · dsimp only
        omega
      · dsimp only
        omega
      · constructor
        · dsimp only
          omega
        · dsimp only
          rw [hfr1, hb1]
          omega
      · dsimp only
        rw [hfr1]
        omega
      · dsimp only
        constructor
        · intro i req' base' ret' hn1 hreq' heq'
          simp only [List.length_append, List.length_cons, List.length_nil] at hn1
          have hni : pool.reqs.length ≤ i := by omega
          obtain ⟨h1, h2, _⟩ := hsound.1 i req' base' ret' hni hreq' heq'
          refine ⟨h1, h2, ?_⟩
          have hmono := hsound.2 pool.reqs.length i _ req' base ret base' ret'
            (le_refl _) (by omega) (addW_lt _ _) hreq' hresp heq'
          rw [hfr1]
          omega
        · intro i j ri rj bi reti bj retj hi1 hij hri hrj heqi heqj
          simp only [List.length_append, List.length_cons, List.length_nil] at hi1
          exact hsound.2 i j ri rj bi reti bj retj (by omega) hij hri hrj heqi heqj
  · simp only [hgrow, if_false] at hm
    simp at hm
    obtain ⟨hp, hpool1⟩ := hm
    subst hp
    subst hpool1
    have hsz : size ≤ f.free := Nat.not_lt.mp hgrow
    have hfr1 : subW f.free size = f.free - size := subW_eq hsz hfree
    refine ⟨_, b, rfl, ?_, le_refl _, ?_, ?_, ?_, ?_, rfl, rfl, rfl⟩
    · exact ⟨hfit.1, by have := hfit.2; omega⟩
    · dsimp only
      omega
    · constructor
      · dsimp only
        have := hfit.1
        omega
      · dsimp only
        rw [hfr1]
        have := hfit.2
        omega
    · dsimp only
      rw [hfr1]
      omega
    · dsimp only
      have hv : f.next + size + subW f.free size = f.next + f.free := by
        rw [hfr1]
        omega
      rw [hv]
      exact hsound

theorem pagedAlloc_sound (n hi : Nat) (hhi : hi ≤ W) :
    AllocSound pagedAlloc n hi := by
  constructor
  · intro i req base ret hn hreq heq
    simp only [pagedAlloc, Option.some.injEq, Prod.mk.injEq] at heq
    obtain ⟨hbase, hret⟩ := heq
    have h2 : W ≤ (i + 1) * W := Nat.le_mul_of_pos_left W (Nat.succ_pos i)
    omega
  · intro i j ri rj bi reti bj retj hn hij hri hrj heqi heqj
    simp only [pagedAlloc, Option.some.injEq, Prod.mk.injEq] at heqi heqj
    obtain ⟨hbi, hri2⟩ := heqi
    obtain ⟨hbj, hrj2⟩ := heqj
    have hstep : (i + 1) * W + W = (i + 2) * W := by ring
    have hmle : (i + 2) * W ≤ (j + 1) * W := Nat.mul_le_mul_right W (by omega)
    omega

/-- C8: two successive successful Allocates from the same active frame,
under the bump invariant and a sound backing allocator, return regions that
do not overlap, each lying fully within a single block's payload. -/
theorem c8_same_frame_allocations_disjoint (pool : Pool) (f : Frame)
    (rest : List Frame) (b : Block) (s1 s2 p1 p2 : Nat) (pool1 pool2 : Pool)
    (hf : pool.frames = f :: rest)
    (hfit : FrameFits f b)
    (hsound : AllocSound pool.alloc_func pool.reqs.length (f.next + f.free))
    (hfree : f.free < W)
    (hgf : 1 ≤ pool.growth_factor)
    (hs1W : s1 * pool.growth_factor + blockHeaderSize < W)
    (hs2W : s2 * pool.growth_factor + blockHeaderSize < W)
    (hbsW : pool.block_size + blockHeaderSize < W)
    (hm1 : psca_malloc pool s1 = some (some p1, pool1))
    (hm2 : psca_malloc pool1 s2 = some (some p2, pool2)) :
    (p1 + s1 ≤ p2 ∨ p2 + s2 ≤ p1) ∧
    (∃ b1, insidePayload b1 p1 s1) ∧ (∃ b2, insidePayload b2 p2 s2) := by
  obtain ⟨f1, b1, hfr1, hin1, _, hps1, hfit1, hfree1, hsound1, haf, hbs, hgfe⟩ :=
    malloc_step pool f rest b s1 p1 pool1 hf hfit hsound hfree hgf hs1W hbsW hm1
  obtain ⟨f2, b2, _, hin2, hnp2, _, _, _, _, _, _, _⟩ :=
    malloc_step pool1 f1 rest b1 s2 p2 pool2 hfr1 hfit1 hsound1 hfree1
      (by rw [hgfe]; exact hgf) (by rw [hgfe]; exact hs2W)
      (by rw [hbs]; exact hbsW) hm2
  exact ⟨Or.inl (le_trans hps1 hnp2), ⟨b1, hin1⟩, ⟨b2, hin2⟩⟩

/-- Witness for C8 at poolP: Allocate(500) then Allocate(600) under
block size 1024 and 992 free bytes; the first lands at 3048 inside blkG,
the second at the payload start of the new block at address W. -/
theorem c8_same_frame_allocations_disjoint_witness :
    (3048 + 500 ≤ W + blockHeaderSize ∨ W + blockHeaderSize + 600 ≤ 3048) ∧
    (∃ b1, insidePayload b1 3048 500) ∧
    (∃ b2, insidePayload b2 (W + blockHeaderSize) 600) :=
  c8_same_frame_allocations_disjoint poolP frmG [] blkG 500 600 3048
    (W + blockHeaderSize) poolP1 poolP2 rfl ⟨by decide, by decide⟩
    (pagedAlloc_sound 0 (frmG.next + frmG.free) (by decide))
    (by decide) (by decide) (by decide) (by decide) (by decide) rfl rfl

end Psca
